import Mathlib

/-!
Verification of the aare extraction / derivation / constraint-evaluation
pipeline (`src/aare_core/llm_parser.py`, `handlers/ontology_loader.py`).

The Python code is shallowly embedded: text is a list of characters,
Python dict-shaped JSON values become the inductive `Val`, fallible code
returns `Except Unit`, and the `Facts` dictionary becomes an insertion
ordered association list.  Regex matching is an external boundary: the
outcome of a regex search (compile failure / no match / a match with its
span and first capture group) is passed to the embedded functions as data,
exactly as the Python functions receive a match object.
-/

namespace Aare

/-- ASCII uppercase test, as used by Python `str.lower` on ASCII text. -/
def isUpperAscii (c : Char) : Bool := 65 ≤ c.toNat && c.toNat ≤ 90

/-- ASCII lowercasing of one character (Python `str.lower` on ASCII). -/
def lowerChar (c : Char) : Char :=
  if 65 ≤ c.toNat && c.toNat ≤ 90 then Char.ofNat (c.toNat + 32) else c

/-- Python `text.lower()` restricted to ASCII. -/
def lowerList (l : List Char) : List Char := l.map lowerChar

/-- `isPrefixL p t`: `p` is a prefix of `t`. -/
def isPrefixL : List Char → List Char → Bool
  | [], _ => true
  | _ :: _, [] => false
  | a :: as, b :: bs => a == b && isPrefixL as bs

/-- Python substring containment `p in t`. -/
def containsSub : List Char → List Char → Bool
  | [], p => isPrefixL p []
  | c :: rest, p => isPrefixL p (c :: rest) || containsSub rest p

/-- Python `t.find(p)`: index of the first occurrence, `none` if absent. -/
def findSub : List Char → List Char → Option Nat
  | [], p => if isPrefixL p [] then some 0 else none
  | c :: rest, p =>
    if isPrefixL p (c :: rest) then some 0
    else (findSub rest p).map (· + 1)

/-- Python slice `t[a:b]` for `0 ≤ a ≤ b` (clamped at the ends). -/
def sliceL (t : List Char) (a b : Nat) : List Char := (t.take b).drop a

/-- Python whitespace test used by `str.strip()`. -/
def isSpaceChar (c : Char) : Bool :=
  c == ' ' || c == '\t' || c == '\n' || c == '\r'

/-- Python `s.strip()`. -/
def stripSpaces (l : List Char) : List Char :=
  ((l.dropWhile isSpaceChar).reverse.dropWhile isSpaceChar).reverse

/-- Python `s.replace(",", "")`. -/
def stripCommas (l : List Char) : List Char := l.filter (fun c => c ≠ ',')

def isDigitChar (c : Char) : Bool := 48 ≤ c.toNat && c.toNat ≤ 57

def digitVal (c : Char) : Nat := c.toNat - 48

/-- Numeric value of a digit string (most significant first). -/
def digitsVal (l : List Char) : Nat :=
  l.foldl (fun acc c => acc * 10 + digitVal c) 0

/-- Fueled helper for `natDigits` (the fuel keeps recursion structural). -/
def natDigitsAux : Nat → Nat → List Char
  | 0, _ => []
  | fuel + 1, n =>
    if n < 10 then [Char.ofNat (48 + n)]
    else natDigitsAux fuel (n / 10) ++ [Char.ofNat (48 + n % 10)]

/-- Decimal rendering of a natural number, as Python `str(n)`. -/
def natDigits (n : Nat) : List Char := natDigitsAux (n + 1) n

/-- Decimal rendering of an integer, as Python `str(i)`. -/
def intRender (i : Int) : List Char :=
  if i < 0 then '-' :: natDigits i.natAbs else natDigits i.natAbs

/-- Python `f"{i:02d}"`: zero-pad to width 2. -/
def pad2 (i : Int) : List Char :=
  let s := intRender i
  if s.length < 2 then '0' :: s else s

/-- Python `int(s)`: optional surrounding space, optional sign, digits. -/
def pyInt (s : List Char) : Except Unit Int :=
  match stripSpaces s with
  | '-' :: r =>
    if r ≠ [] && r.all isDigitChar then .ok (-(digitsVal r : Int))
    else .error ()
  | '+' :: r =>
    if r ≠ [] && r.all isDigitChar then .ok ((digitsVal r : Nat) : Int)
    else .error ()
  | r =>
    if r ≠ [] && r.all isDigitChar then .ok ((digitsVal r : Nat) : Int)
    else .error ()

/-- Helper for `pyFloat`: mantissa and exponent parsing. -/
def pyFloatBody (rest : List Char) : Except Unit ℚ :=
  let intPart := rest.takeWhile isDigitChar
  let rest1 := rest.dropWhile isDigitChar
  let (fracPart, rest2) : List Char × List Char :=
    match rest1 with
    | '.' :: r => (r.takeWhile isDigitChar, r.dropWhile isDigitChar)
    | r => ([], r)
  if intPart = [] ∧ fracPart = [] then .error ()
  else
    let mant : ℚ := (digitsVal intPart : ℚ) +
      (digitsVal fracPart : ℚ) / ((10 : ℚ) ^ fracPart.length)
    match rest2 with
    | [] => .ok mant
    | e :: r =>
      if e == 'e' || e == 'E' then
        let (esign, r') : Int × List Char :=
          match r with
          | '-' :: rr => (-1, rr)
          | '+' :: rr => (1, rr)
          | rr => (1, rr)
        if r' ≠ [] && r'.all isDigitChar then
          .ok (mant * (10 : ℚ) ^ (esign * (digitsVal r' : Int)))
        else .error ()
      else .error ()

/-- Python `float(s)` on the decimal forms the parser can produce. -/
def pyFloat (s : List Char) : Except Unit ℚ :=
  let s := stripSpaces s
  match s with
  | '-' :: r => (pyFloatBody r).map (fun q => -q)
  | '+' :: r => pyFloatBody r
  | r => pyFloatBody r

/-! ## The dynamic value universe

Python values flowing through the parser: `None`, booleans, ints, floats
(as rationals), strings, lists and dicts.  Formula expression trees are
`Val`s whose top node is a single-entry dict. -/

inductive Val where
  | vnull : Val
  | vbool (b : Bool) : Val
  | vint (n : Int) : Val
  | vfloat (q : ℚ) : Val
  | vstr (s : String) : Val
  | vlist (xs : List Val) : Val
  | vdict (kvs : List (String × Val)) : Val

/-- Python `v is None`. -/
def isNullVal : Val → Bool
  | .vnull => true
  | _ => false

/-- Python `v is True`. -/
def isTrueVal : Val → Bool
  | .vbool true => true
  | _ => false

/-- Python truthiness (`if v:`). -/
def truthy : Val → Bool
  | .vnull => false
  | .vbool b => b
  | .vint n => n ≠ 0
  | .vfloat q => q ≠ 0
  | .vstr s => s ≠ ""
  | .vlist xs => !xs.isEmpty
  | .vdict kvs => !kvs.isEmpty

/-- Insertion-ordered association map, the embedding of a Python dict. -/
def AList (α : Type) : Type := List (String × α)

/-- Python `d[k]` / `d.get(k)` as an `Option`. -/
def aget {α : Type} : AList α → String → Option α
  | [], _ => none
  | (k', v) :: rest, k => if k' = k then some v else aget rest k

/-- Python `d[k] = v`: overwrite in place, else append. -/
def aset {α : Type} : AList α → String → α → AList α
  | [], k, v => [(k, v)]
  | (k', v') :: rest, k, v =>
    if k' = k then (k, v) :: rest else (k', v') :: aset rest k v

/-- The `Facts` map of raw extracted values (non-confidence mode). -/
def Facts : Type := AList Val

/-- `get_value(field, default)` from `_calculate_computed_fields`. -/
def getValue (facts : Facts) (field : String) (dflt : Val) : Val :=
  match aget facts field with
  | some v => v
  | none => dflt

/-- Python `extracted.get(key, default)` where `key` is an arbitrary value:
strings are looked up, other hashable scalars are absent (the keys of
`Facts` are strings), lists and dicts raise `TypeError: unhashable`. -/
def getValueV (facts : Facts) (key : Val) (dflt : Val) : Except Unit Val :=
  match key with
  | .vstr s => .ok (getValue facts s dflt)
  | .vlist _ => .error ()
  | .vdict _ => .error ()
  | _ => .ok dflt

/-! ## Formula interpreter (`_evaluate_formula`) -/

/-- `args if isinstance(args, list) else [args]`. -/
def toFields (args : Val) : List Val :=
  match args with
  | .vlist l => l
  | v => [v]

/-- `get_value(x) if isinstance(x, str) else x`: the pure operand
resolution used by the comparison operators and the `if` branches. -/
def resolveOp (facts : Facts) (v : Val) : Val :=
  match v with
  | .vstr s => getValue facts s .vnull
  | v => v

/-- Argument resolution for `add`/`mul`/`if`-condition/`not`/`and`/`or`:
dict → recursive evaluation (`ev`), string → field lookup, else literal. -/
def resolveArgWith (ev : Val → Except Unit Val) (facts : Facts) (a : Val) :
    Except Unit Val :=
  match a with
  | .vdict kvs => ev (.vdict kvs)
  | .vstr s => .ok (getValue facts s .vnull)
  | v => .ok v

/-- Argument resolution for `any`/`all`: dict → recursive evaluation,
anything else → `get_value(f, False)` (which `TypeError`s on unhashable
list/dict keys). -/
def resolveAnyWith (ev : Val → Except Unit Val) (facts : Facts) (f : Val) :
    Except Unit Val :=
  match f with
  | .vdict kvs => ev (.vdict kvs)
  | v => getValueV facts v (.vbool false)

/-- Python `isinstance(v, int)` (booleans are ints), with the value. -/
def toIntLike : Val → Option Int
  | .vint n => some n
  | .vbool b => some (if b then 1 else 0)
  | _ => none

/-- Python `isinstance(v, (int, float))`, with the numeric value. -/
def toQNum : Val → Option ℚ
  | .vint n => some (n : ℚ)
  | .vfloat q => some q
  | .vbool b => some (if b then 1 else 0)
  | _ => none

/-- Numeric `+` on two numbers, preserving Python's int/float split. -/
def pyNumAdd (a b : Val) : Val :=
  match toIntLike a, toIntLike b with
  | some x, some y => .vint (x + y)
  | _, _ => .vfloat ((toQNum a).getD 0 + (toQNum b).getD 0)

/-- One step of the `sum` operator: `if isinstance(val, (int, float)):
total += val` (non-numeric values contribute nothing). -/
def sumStep (total val : Val) : Val :=
  if (toQNum val).isSome then pyNumAdd total val else total

/-- One step of Python `sum(values)` in the `add` operator:
non-numeric operands raise `TypeError`. -/
def pyAddStep (acc v : Val) : Except Unit Val :=
  match toQNum acc, toQNum v with
  | some _, some _ => .ok (pyNumAdd acc v)
  | _, _ => .error ()

def strRepeat (s : String) (n : Int) : String :=
  String.join (List.replicate n.toNat s)

def listRepeat (l : List Val) (n : Int) : List Val :=
  (List.replicate n.toNat l).flatten

/-- One step of `result *= v` in the `mul` operator: numeric product,
Python sequence repetition for int×str / int×list, else `TypeError`. -/
def pyMulStep (acc v : Val) : Except Unit Val :=
  match toIntLike acc, toIntLike v with
  | some x, some y => .ok (.vint (x * y))
  | _, _ =>
    match toQNum acc, toQNum v with
    | some a, some b => .ok (.vfloat (a * b))
    | _, _ =>
      match toIntLike acc, v with
      | some n, .vstr s => .ok (.vstr (strRepeat s n))
      | some n, .vlist l => .ok (.vlist (listRepeat l n))
      | _, _ =>
        match acc, toIntLike v with
        | .vstr s, some n => .ok (.vstr (strRepeat s n))
        | .vlist l, some n => .ok (.vlist (listRepeat l n))
        | _, _ => .error ()

/-- Lexicographic `<` on code points, Python string comparison. -/
def lexLtCh : List Char → List Char → Bool
  | [], [] => false
  | [], _ :: _ => true
  | _ :: _, [] => false
  | a :: as, b :: bs =>
    if a.toNat < b.toNat then true
    else if b.toNat < a.toNat then false
    else lexLtCh as bs

/-- Python `a < b` for the values comparisons can reach here:
numbers (bools are ints) and strings; anything else `TypeError`s. -/
def pyLtB (a b : Val) : Except Unit Bool :=
  match toQNum a, toQNum b with
  | some x, some y => .ok (decide (x < y))
  | _, _ =>
    match a, b with
    | .vstr s, .vstr t => .ok (lexLtCh s.data t.data)
    | _, _ => .error ()

def pyGtB (a b : Val) : Except Unit Bool := pyLtB b a

def pyGeB (a b : Val) : Except Unit Bool := (pyLtB a b).map (!·)

def pyLeB (a b : Val) : Except Unit Bool := (pyLtB b a).map (!·)

/-- The two-argument comparison branch of `_evaluate_formula`
(`gt`/`gte`/`lt`/`lte`): resolve both operands, null on either side gives
null, otherwise compare.  Arities other than 2 fall through to the final
`return None`. -/
def cmpBranch (cmp : Val → Val → Except Unit Bool) (facts : Facts)
    (args : Val) : Except Unit Val :=
  match args with
  | .vlist [a0, a1] =>
    let left := resolveOp facts a0
    let right := resolveOp facts a1
    if isNullVal left || isNullVal right then .ok .vnull
    else (cmp left right).map .vbool
  | _ => .ok .vnull

/-- The `add`/`mul` branch: with ≥ 2 arguments, resolve them (recursively
evaluating nested formulas); if any resolved value is null the branch
falls through to the final `return None`; otherwise fold the arithmetic
step over the values. -/
def arithBranchWith (ev : Val → Except Unit Val)
    (step : Val → Val → Except Unit Val) (init : Val) (facts : Facts)
    (args : Val) : Except Unit Val :=
  match args with
  | .vlist l =>
    if l.length ≥ 2 then do
      let values ← l.mapM (resolveArgWith ev facts)
      if values.all (fun v => !isNullVal v) then values.foldlM step init
      else .ok .vnull
    else .ok .vnull
  | _ => .ok .vnull

/-- `_evaluate_formula(formula, extracted, get_value)`, fueled for the
recursion into nested formulas (callers pass at least the nesting depth;
`sizeOf` the formula always suffices).  A non-dict formula or a dict
without exactly one key evaluates to null; an unknown operator evaluates
to null; Python exceptions (unhashable keys, type errors in arithmetic
or comparison) are `.error`. -/
def evalFormula : Nat → Val → Facts → Except Unit Val
  | 0, _, _ => .ok .vnull
  | fuel + 1, formula, facts =>
    match formula with
    | .vdict [(op, args)] =>
      if op = "count_true" then do
        let c ← (toFields args).foldlM (fun (c : Int) f => do
          let v ← getValueV facts f (.vbool false)
          pure (if isTrueVal v then c + 1 else c)) 0
        pure (.vint c)
      else if op = "count_fields" then do
        let c ← (toFields args).foldlM (fun (c : Int) f => do
          let v ← getValueV facts f .vnull
          pure (if isNullVal v then c else c + 1)) 0
        pure (.vint c)
      else if op = "sum" then
        .ok ((toFields args).foldl (fun total f =>
          sumStep total
            (match f with
             | .vstr s => getValue facts s (.vint 0)
             | v => v)) (.vint 0))
      else if op = "any" then do
        let values ← (toFields args).mapM
          (resolveAnyWith (fun g => evalFormula fuel g facts) facts)
        pure (.vbool (values.any truthy))
      else if op = "all" then do
        let values ← (toFields args).mapM
          (resolveAnyWith (fun g => evalFormula fuel g facts) facts)
        pure (.vbool (values.all (fun v => isNullVal v || truthy v)))
      else if op = "gt" ∨ op = ">" then cmpBranch pyGtB facts args
      else if op = "gte" ∨ op = ">=" then cmpBranch pyGeB facts args
      else if op = "lt" ∨ op = "<" then cmpBranch pyLtB facts args
      else if op = "lte" ∨ op = "<=" then cmpBranch pyLeB facts args
      else if op = "add" ∨ op = "+" then
        arithBranchWith (fun g => evalFormula fuel g facts) pyAddStep
          (.vint 0) facts args
      else if op = "mul" ∨ op = "*" then
        arithBranchWith (fun g => evalFormula fuel g facts) pyMulStep
          (.vint 1) facts args
      else if op = "if" then
        match args with
        | .vlist [c, t, e] => do
          let condRes ← resolveArgWith (fun g => evalFormula fuel g facts)
            facts c
          if truthy condRes then .ok (resolveOp facts t)
          else .ok (resolveOp facts e)
        | _ => .ok .vnull
      else if op = "not" then do
        let val ← resolveArgWith (fun g => evalFormula fuel g facts)
          facts args
        pure (if isNullVal val then .vnull else .vbool (!truthy val))
      else if op = "and" then do
        let results ← (toFields args).mapM
          (resolveArgWith (fun g => evalFormula fuel g facts) facts)
        pure (if results.isEmpty then .vnull
          else .vbool (results.all (fun v => isNullVal v || truthy v)))
      else if op = "or" then do
        let results ← (toFields args).mapM
          (resolveArgWith (fun g => evalFormula fuel g facts) facts)
        pure (if results.isEmpty then .vnull
          else .vbool (results.any truthy))
      else .ok .vnull
    | _ => .ok .vnull

/-! ## Extractor configuration

A Python extractor dict, with `.get` defaults baked in: a missing
`pattern` is the empty string (both are falsy and flow identically), a
missing `default`/`formula` is null (the code only tests `is not None` /
truthiness). -/

structure Extractor where
  type : String := ""
  pattern : String := ""
  keywords : List String := []
  negationWords : List String := []
  checkNegation : Bool := true
  choices : List (String × List String) := []
  default : Val := .vnull
  formula : Val := .vnull

/-- Outcome of `compiled.search(...)` at the regex boundary:
compile failure (`_get_compiled_pattern` returned `None`), no match, or a
match with its span and first capture group (`None` when the pattern has
no groups). -/
inductive RegexOutcome where
  | badPattern : RegexOutcome
  | noMatch : RegexOutcome
  | matched (start stop : Nat) (group1 : Option (List Char)) : RegexOutcome

/-! ## Boolean extraction (`_extract_field`, `boolean` branch) -/

/-- The keyword loop of the boolean branch (lines 234–254): for each
keyword in order, on a hit, if negation checking is on **and** some
negation words are configured, look for any negation word in the window
`[kw_pos - 15, kw_pos + len(kw))` of the lowercased text; on a negation
hit try the next keyword, otherwise return true.  No keyword hit gives
false. -/
def extractBooleanKeywords (textLower : List Char) :
    List (List Char) → List (List Char) → Bool → Bool
  | [], _, _ => false
  | kw :: rest, negationWords, checkNegation =>
    if containsSub textLower kw then
      if checkNegation && !negationWords.isEmpty then
        let kwPos := (findSub textLower kw).getD 0
        let contextStart := kwPos - 15
        let contextEnd := kwPos + kw.length
        let context := sliceL textLower contextStart contextEnd
        if negationWords.any (fun neg => containsSub context neg) then
          extractBooleanKeywords textLower rest negationWords checkNegation
        else true
      else true
    else extractBooleanKeywords textLower rest negationWords checkNegation

/-- Keyword-path boolean extraction for an extractor record. -/
def extractFieldBooleanKeywords (textLower : List Char) (e : Extractor) :
    Bool :=
  extractBooleanKeywords textLower (e.keywords.map (·.data))
    (e.negationWords.map (·.data)) e.checkNegation

/-- The full boolean branch of `_extract_field` (lines 209–254): when a
pattern is configured and compiles, a match is checked for negation words
in the window `[start - 30, min(len(text), end + 30))` and decides the
result; no match gives false; a compile failure (or no pattern) falls
through to the keyword loop. -/
def extractFieldBoolean (textLower : List Char) (e : Extractor)
    (ro : RegexOutcome) : Bool :=
  if e.pattern ≠ "" then
    match ro with
    | .badPattern => extractFieldBooleanKeywords textLower e
    | .noMatch => false
    | .matched start stop _ =>
      if e.checkNegation && !e.negationWords.isEmpty then
        let contextStart := start - 30
        let contextEnd := min textLower.length (stop + 30)
        let context := sliceL textLower contextStart contextEnd
        if e.negationWords.any (fun neg => containsSub context neg.data)
        then false else true
      else true
  else extractFieldBooleanKeywords textLower e

/-- The `has_approval` extractor of the default mortgage-compliance-v1
ontology (`ontology_loader.py`, line 143): keywords only, no negation
words configured. -/
def hasApprovalExtractor : Extractor :=
  { type := "boolean", keywords := ["approved", "approve"] }

/-! ## Computed-field settlement (`_calculate_computed_fields`) -/

/-- `_extract_formula_dependencies`: syntactic walk of the formula tree
collecting bare string field references (fueled; `sizeOf` suffices). -/
def depsOf : Nat → Val → List String
  | 0, _ => []
  | fuel + 1, v =>
    match v with
    | .vstr s => [s]
    | .vdict kvs =>
      kvs.foldr (fun kv acc =>
        (match kv.2 with
         | .vlist items => items.foldr (fun i a => depsOf fuel i ++ a) []
         | v2 => depsOf fuel v2) ++ acc) []
    | _ => []

/-- One pass of the settlement loop: walk `remaining` in order; a field
with a falsy formula takes its default (if non-null) and is marked done;
a field with an unsettled computed dependency is skipped; otherwise its
formula is evaluated — a non-null result is stored, a null result or an
exception stores the default (if non-null) — and the field is marked
done.  Returns the updated facts and the names settled this pass. -/
def settlePass (evalFuel : Nat) (computedNames : List String) :
    Facts → List (String × Extractor) → Facts × List String
  | facts, [] => (facts, [])
  | facts, (name, e) :: rest =>
    if !truthy e.formula then
      let facts' :=
        if !isNullVal e.default then aset facts name e.default else facts
      let res := settlePass evalFuel computedNames facts' rest
      (res.1, name :: res.2)
    else
      let deps := depsOf evalFuel e.formula
      if deps.any (fun d => computedNames.contains d && (aget facts d).isNone)
      then settlePass evalFuel computedNames facts rest
      else
        match evalFormula evalFuel e.formula facts with
        | .ok v =>
          let facts' :=
            if !isNullVal v then aset facts name v
            else if !isNullVal e.default then aset facts name e.default
            else facts
          let res := settlePass evalFuel computedNames facts' rest
          (res.1, name :: res.2)
        | .error _ =>
          let facts' :=
            if !isNullVal e.default then aset facts name e.default else facts
          let res := settlePass evalFuel computedNames facts' rest
          (res.1, name :: res.2)

/-- The `while remaining and iteration < max_iterations` loop. -/
def settleLoop (evalFuel : Nat) (computedNames : List String) :
    Nat → Facts → List (String × Extractor) → Facts
  | 0, facts, _ => facts
  | _ + 1, facts, [] => facts
  | passes + 1, facts, remaining =>
    let res := settlePass evalFuel computedNames facts remaining
    settleLoop evalFuel computedNames passes res.1
      (remaining.filter (fun p => !res.2.contains p.1))

/-- `_calculate_computed_fields` (non-confidence mode): iterative
settlement with `max_iterations = len(remaining) + 1`.  `evalFuel` is the
recursion allowance handed to the formula walker and evaluator; any value
at least the nesting depth of the formulas reproduces the Python
semantics exactly. -/
def calcComputedFields (evalFuel : Nat) (facts : Facts)
    (ce : List (String × Extractor)) : Facts :=
  settleLoop evalFuel (ce.map (·.1)) (ce.length + 1) facts ce

/-! ## Numeric extraction (`_parse_numeric` and the numeric branch of
`_extract_field`) -/

/-- The money suffix multiplier: `'k' in match_text` etc., checked in
this order on the lowercased matched slice. -/
def moneyMult (matchText : List Char) : ℚ :=
  if containsSub matchText ['k'] then 1000
  else if containsSub matchText ['m'] then 1000000
  else if containsSub matchText ['b'] then 1000000000
  else 1

/-- `_parse_numeric(match, original_text, value_type)`: the first capture
group with commas stripped is converted (`int`/`float` conversion errors
are raised, not caught); for money the multiplier found in the matched
slice of the original text is applied; an unrecognized type returns
null. -/
def parseNumeric (text : List Char) (start stop : Nat)
    (group1 : List Char) (valueType : String) : Except Unit Val :=
  let valueStr := stripCommas group1
  if valueType = "int" then (pyInt valueStr).map .vint
  else if valueType = "float" then (pyFloat valueStr).map .vfloat
  else if valueType = "percentage" then (pyFloat valueStr).map .vfloat
  else if valueType = "money" then
    let matchText := lowerList (sliceL text start stop)
    (pyFloat valueStr).map (fun q => .vfloat (q * moneyMult matchText))
  else .ok .vnull

/-- The `int`/`float`/`money`/`percentage` branch of `_extract_field`
(lines 256–268): no pattern or a malformed pattern yields `None` (field
absent); no match or no capture groups yields `None`; a match with a
group is handed to `_parse_numeric`, whose conversion errors propagate to
the caller. -/
def extractFieldNumeric (text : List Char) (e : Extractor)
    (ro : RegexOutcome) : Except Unit Val :=
  if e.pattern = "" then .ok .vnull
  else
    match ro with
    | .badPattern => .ok .vnull
    | .noMatch => .ok .vnull
    | .matched start stop group1 =>
      match group1 with
      | some g => parseNumeric text start stop g e.type
      | none => .ok .vnull

/-! ## Constraint evaluation -/

/-- A constraint record; the machine-evaluable predicate is an optional
formula in the same DSL. -/
structure Constraint where
  id : String
  category : String := ""
  description : String := ""
  errorMessage : String := ""
  citation : String := ""
  formula : Option Val := none

/-- Modelled from the spec: the constraint evaluator (`SMTVerifier.verify`
in `aare_core/smt_verifier.py`) is not part of the sources under `src/`;
per spec §4.4 each constraint's predicate formula is evaluated against
the facts and a violation is recorded exactly when the result is the
boolean `False`; a `True` or null result (including unknown operators,
which the formula interpreter evaluates to null) and a missing formula
give no violation. -/
def constraintViolated (evalFuel : Nat) (facts : Facts) (c : Constraint) :
    Bool :=
  match c.formula with
  | none => false
  | some f =>
    match evalFormula evalFuel f facts with
    | .ok (.vbool false) => true
    | _ => false

/-- Modelled from the spec: the violations list of §4.4 — the constraints,
in ontology order, whose predicate evaluated to exactly `False`. -/
def violationsOf (evalFuel : Nat) (facts : Facts) (cs : List Constraint) :
    List Constraint :=
  cs.filter (constraintViolated evalFuel facts)

/-! ## Confidence scores (`_calculate_confidence`) and computed-fact
records -/

/-- `ExtractionResult` (llm_parser.py, lines 39–45). -/
structure ExtractionResult where
  value : Val
  confidence : ℚ
  source : String
  extractorType : String

/-- `set_computed` in `_calculate_computed_fields` (confidence mode):
computed facts are stored with confidence 1.0 and source `"computed"`. -/
def setComputedC (cf : AList ExtractionResult) (field : String) (v : Val) :
    AList ExtractionResult :=
  aset cf field ⟨v, 1, "computed", "computed"⟩

/-- `set_derived` in `_calculate_derived_fields` (confidence mode): the
built-in derivations are likewise stored with confidence 1.0 and source
`"computed"`. -/
def setDerivedC (cf : AList ExtractionResult) (field : String) (v : Val) :
    AList ExtractionResult :=
  aset cf field ⟨v, 1, "computed", "computed"⟩

/-- `re.match(r'\d\x7b4\x7d-\d\x7b2\x7d-\d\x7b2\x7d', value)`:
anchored ISO-looking prefix test. -/
def isoPrefix (s : String) : Bool :=
  match s.data with
  | a :: b :: c :: d :: '-' :: e :: f :: '-' :: g :: h :: _ =>
    [a, b, c, d, e, f, g, h].all isDigitChar
  | _ => false

/-- `_calculate_confidence(text, text_lower, extractor, value)`.  The
only fallible step is the enum branch's `value in choices`, which raises
`TypeError` on an unhashable (list/dict) value. -/
def calcConfidence (textLower : List Char) (e : Extractor) (v : Val) :
    Except Unit ℚ :=
  if e.pattern ≠ "" then .ok 0.95
  else if e.type = "enum" then
    match v with
    | .vlist _ => .error ()
    | .vdict _ => .error ()
    | .vstr s =>
      .ok (if (e.choices.map (·.1)).contains s then 0.90 else 0.70)
    | _ => .ok 0.70
  else if e.type = "boolean" then
    let nMatches :=
      (e.keywords.filter
        (fun kw => containsSub textLower (lowerList kw.data))).length
    if nMatches ≥ 3 then .ok 0.95
    else if nMatches ≥ 2 then .ok 0.85
    else if nMatches = 1 then .ok 0.75
    else .ok (if truthy v then 0.50 else 0.60)
  else if e.type = "list" then
    match v with
    | .vlist l =>
      .ok (if l.length ≥ 3 then 0.90 else if l.length ≥ 1 then 0.80
        else 0.50)
    | _ => .ok 0.70
  else if e.type = "date" ∨ e.type = "datetime" then
    match v with
    | .vstr s => .ok (if isoPrefix s then 0.90 else 0.75)
    | _ => .ok 0.75
  else if e.type = "int" ∨ e.type = "float" ∨ e.type = "money" ∨
      e.type = "percentage" then .ok 0.90
  else .ok 0.70

/-! ## Date normalization (`_normalize_date` and `DATE_PATTERNS`)

The regex table driving standard date extraction.  The third entry ties
short-year inputs like `12/25/24` to the explicit format `%m-%d-%y`. -/

def DATE_PATTERNS : List (String × Option String) :=
  [("\\b(\\d\x7b4\x7d)[-/](\\d\x7b1,2\x7d)[-/](\\d\x7b1,2\x7d)\\b",
      some "%Y-%m-%d"),
   ("\\b(\\d\x7b1,2\x7d)[-/](\\d\x7b1,2\x7d)[-/](\\d\x7b4\x7d)\\b",
      some "%m-%d-%Y"),
   ("\\b(\\d\x7b1,2\x7d)[-/](\\d\x7b1,2\x7d)[-/](\\d\x7b2\x7d)\\b",
      some "%m-%d-%y"),
   ("\\b((?:Jan(?:uary)?|Feb(?:ruary)?|Mar(?:ch)?|Apr(?:il)?|May|Jun(?:e)?|Jul(?:y)?|Aug(?:ust)?|Sep(?:tember)?|Oct(?:ober)?|Nov(?:ember)?|Dec(?:ember)?)\\s+\\d\x7b1,2\x7d,?\\s+\\d\x7b4\x7d)\\b",
      none),
   ("\\b(\\d\x7b1,2\x7d\\s+(?:Jan(?:uary)?|Feb(?:ruary)?|Mar(?:ch)?|Apr(?:il)?|May|Jun(?:e)?|Jul(?:y)?|Aug(?:ust)?|Sep(?:tember)?|Oct(?:ober)?|Nov(?:ember)?|Dec(?:ember)?)\\s+\\d\x7b4\x7d)\\b",
      none)]

/-- Helper for the dash-or-slash split, with an accumulator. -/
def splitSepGo : List Char → List Char → List (List Char)
  | acc, [] => [acc.reverse]
  | acc, c :: rest =>
    if c == '-' || c == '/' then acc.reverse :: splitSepGo [] rest
    else splitSepGo (c :: acc) rest

/-- `re.split` on dash-or-slash, as in `_normalize_date`. -/
def splitSep (l : List Char) : List (List Char) := splitSepGo [] l

/-- Tokens of the `strptime` formats appearing in `formats_to_try`. -/
inductive DTok where
  | year4 : DTok
  | year2 : DTok
  | monthNum : DTok
  | dayNum : DTok
  | monthFull : DTok
  | monthAbbr : DTok
  | lit (c : Char) : DTok

def monthsFull : List (String × Nat) :=
  [("january", 1), ("february", 2), ("march", 3), ("april", 4),
   ("may", 5), ("june", 6), ("july", 7), ("august", 8),
   ("september", 9), ("october", 10), ("november", 11), ("december", 12)]

def monthsAbbr : List (String × Nat) :=
  [("jan", 1), ("feb", 2), ("mar", 3), ("apr", 4), ("may", 5),
   ("jun", 6), ("jul", 7), ("aug", 8), ("sep", 9), ("oct", 10),
   ("nov", 11), ("dec", 12)]

/-- Case-insensitive month-name match, returning the month number and the
rest of the input. -/
def matchMonth : List (String × Nat) → List Char → Option (Nat × List Char)
  | [], _ => none
  | (nm, idx) :: rest, cs =>
    let n := nm.data
    if lowerList (cs.take n.length) = n then some (idx, cs.drop n.length)
    else matchMonth rest cs

/-- Exactly `n` leading digits. -/
def takeDigitsExact (n : Nat) (cs : List Char) : Option (Nat × List Char) :=
  let pre := cs.take n
  if pre.length = n ∧ pre.all isDigitChar then
    some (digitsVal pre, cs.drop n)
  else none

/-- One- or two-digit number, longest first (the alternation preference
of the `strptime` field regexes). -/
def take2or1Digits (cs : List Char) : List (Nat × List Char) :=
  (match cs with
   | a :: b :: rest =>
     if isDigitChar a ∧ isDigitChar b then
       [(digitVal a * 10 + digitVal b, rest)]
     else []
   | _ => []) ++
  (match cs with
   | a :: rest => if isDigitChar a then [(digitVal a, rest)] else []
   | _ => [])

/-- Run a token list over the input, collecting the candidate
`(year?, month?, day?)` parses that consume the whole input (`strptime`
rejects trailing data).  The two-digit year pivot is CPython's
(`≤ 68 → 2000s`). -/
def runToks : List DTok → List Char → Option Int → Option Nat →
    Option Nat → List (Option Int × Option Nat × Option Nat)
  | [], cs, y, m, d => if cs.isEmpty then [(y, m, d)] else []
  | tok :: rest, cs, y, m, d =>
    match tok with
    | .lit c =>
      match cs with
      | c' :: cs' => if c' == c then runToks rest cs' y m d else []
      | [] => []
    | .year4 =>
      match takeDigitsExact 4 cs with
      | some (v, cs') => runToks rest cs' (some (v : Int)) m d
      | none => []
    | .year2 =>
      match takeDigitsExact 2 cs with
      | some (v, cs') =>
        runToks rest cs'
          (some (if v ≤ 68 then (2000 + v : Int) else (1900 + v : Int))) m d
      | none => []
    | .monthNum =>
      (take2or1Digits cs).flatMap
        (fun p => runToks rest p.2 y (some p.1) d)
    | .dayNum =>
      (take2or1Digits cs).flatMap
        (fun p => runToks rest p.2 y m (some p.1))
    | .monthFull =>
      match matchMonth monthsFull cs with
      | some (v, cs') => runToks rest cs' y (some v) d
      | none => []
    | .monthAbbr =>
      match matchMonth monthsAbbr cs with
      | some (v, cs') => runToks rest cs' y (some v) d
      | none => []

def daysInMonth (y : Int) (m : Nat) : Nat :=
  if m = 2 then
    if (y % 4 = 0 ∧ y % 100 ≠ 0) ∨ y % 400 = 0 then 29 else 28
  else if m = 4 ∨ m = 6 ∨ m = 9 ∨ m = 11 then 30 else 31

/-- The `datetime` constructor's validation (`MINYEAR`/`MAXYEAR`, month
and day-in-month ranges). -/
def validYMD (y : Int) (m d : Nat) : Bool :=
  1 ≤ y && y ≤ 9999 && 1 ≤ m && m ≤ 12 && 1 ≤ d && d ≤ daysInMonth y m

/-- First fully-parsed candidate that builds a valid date. -/
def strptimeYMD (toks : List DTok) (cs : List Char) :
    Option (Int × Nat × Nat) :=
  (runToks toks cs none none none).findSome?
    (fun c =>
      match c with
      | (some y, some m, some d) =>
        if validYMD y m d then some (y, m, d) else none
      | _ => none)

/-- `dt.strftime('%Y-%m-%d')`: year unpadded (glibc `%Y`), month and day
zero-padded to two digits. -/
def strftimeYMD (y : Int) (m d : Nat) : List Char :=
  intRender y ++ '-' :: pad2 (m : Int) ++ '-' :: pad2 (d : Int)

/-- The `formats_to_try` table of `_normalize_date`, in source order. -/
def formatsToTry : List (List DTok) :=
  [[.year4, .lit '-', .monthNum, .lit '-', .dayNum],
   [.year4, .lit '/', .monthNum, .lit '/', .dayNum],
   [.monthNum, .lit '-', .dayNum, .lit '-', .year4],
   [.monthNum, .lit '/', .dayNum, .lit '/', .year4],
   [.monthNum, .lit '-', .dayNum, .lit '-', .year2],
   [.monthNum, .lit '/', .dayNum, .lit '/', .year2],
   [.monthFull, .lit ' ', .dayNum, .lit ',', .lit ' ', .year4],
   [.monthFull, .lit ' ', .dayNum, .lit ' ', .year4],
   [.monthAbbr, .lit ' ', .dayNum, .lit ',', .lit ' ', .year4],
   [.monthAbbr, .lit ' ', .dayNum, .lit ' ', .year4],
   [.dayNum, .lit ' ', .monthFull, .lit ' ', .year4],
   [.dayNum, .lit ' ', .monthAbbr, .lit ' ', .year4]]

/-- The `datetime.strptime` fallback loop of `_normalize_date`. -/
def tryCommonFormats (cs : List Char) : Option (List Char) :=
  formatsToTry.findSome?
    (fun toks => (strptimeYMD toks cs).map
      (fun t => strftimeYMD t.1 t.2.1 t.2.2))

/-- `_normalize_date(date_str, fmt)` on character lists: strip, then the
explicit-format branches (`%Y-%m-%d` / `%m-%d-%Y` / `%m-%d-%y`, the last
with the `< 50 → 2000s, ≥ 50 → 1900s` two-digit pivot); a conversion
error or a part count other than 3 falls through to the
`formats_to_try` loop. -/
def normalizeDateCore (cs0 : List Char) (fmt : Option String) :
    Option (List Char) :=
  let cs := stripSpaces cs0
  let viaFmt : Option (List Char) :=
    match fmt with
    | some f =>
      if f = "%Y-%m-%d" then
        match splitSep cs with
        | [p0, p1, p2] =>
          match pyInt p1, pyInt p2 with
          | .ok m, .ok d => some (p0 ++ '-' :: pad2 m ++ '-' :: pad2 d)
          | _, _ => none
        | _ => none
      else if f = "%m-%d-%Y" then
        match splitSep cs with
        | [p0, p1, p2] =>
          match pyInt p0, pyInt p1 with
          | .ok m, .ok d => some (p2 ++ '-' :: pad2 m ++ '-' :: pad2 d)
          | _, _ => none
        | _ => none
      else if f = "%m-%d-%y" then
        match splitSep cs with
        | [p0, p1, p2] =>
          match pyInt p0, pyInt p1, pyInt p2 with
          | .ok m, .ok d, .ok yr =>
            let year := if yr < 50 then yr + 2000 else yr + 1900
            some (intRender year ++ '-' :: pad2 m ++ '-' :: pad2 d)
          | _, _, _ => none
        | _ => none
      else none
    | none => none
  match viaFmt with
  | some out => some out
  | none => tryCommonFormats cs

/-- `_normalize_date` on strings. -/
def normalizeDate (s : String) (fmt : Option String) : Option String :=
  (normalizeDateCore s.data fmt).map String.mk

/-! ## Concrete ontology fragments used by the claims -/

/-- A two-field computed-extractor cycle, each field carrying a default:
`a = add(b, 1)`, `b = add(a, 1)`. -/
def cycleExtractors : List (String × Extractor) :=
  [("a", { type := "computed",
           formula := .vdict [("add", .vlist [.vstr "b", .vint 1])],
           default := .vint 0 }),
   ("b", { type := "computed",
           formula := .vdict [("add", .vlist [.vstr "a", .vint 1])],
           default := .vint 0 })]

/-- A computed extractor whose formula has an unknown operator (so it
evaluates to null) and a configured default. -/
def nullFormulaExtractors : List (String × Extractor) :=
  [("c", { type := "computed",
           formula := .vdict [("frobnicate", .vlist [.vstr "x"])],
           default := .vint 7 })]

/-! ## Claim C1 -/

/-- C1, counterexample.  The claim states that for the default
mortgage-compliance-v1 ontology the input `"not approved"` produces
`has_approval = false`.  On the code it produces `true`: the default
`has_approval` extractor configures no `negation_words`, and the keyword
loop of `_extract_field` only enters the negation-window check when
`negation_words` is nonempty, so the first keyword hit (`"approved"`)
returns true. -/
theorem c1_negation_window_counterexample :
    extractFieldBooleanKeywords "not approved".data hasApprovalExtractor
      = true := rfl

/-- C1, amended.  For the default mortgage ontology's `has_approval`
extractor (keywords `["approved", "approve"]`, no negation words), the
input `"not approved"` produces `has_approval = true` (the negation
window is never consulted because no negation words are configured), and
`"approved, no issues"` also produces `has_approval = true`.  The
negation window does act when negation words are configured: the same
keywords with `negation_words = ["not"]` yield `false` on
`"not approved"`. -/
theorem c1_negation_window_amended :
    extractFieldBooleanKeywords (lowerList "not approved".data)
        hasApprovalExtractor = true ∧
    extractFieldBooleanKeywords (lowerList "approved, no issues".data)
        hasApprovalExtractor = true ∧
    extractBooleanKeywords (lowerList "not approved".data)
        ["approved".data, "approve".data] ["not".data] true = false :=
  ⟨rfl, rfl, rfl⟩

/-! ## Claim C3 -/

/-- C3, counterexample.  The claim states that a computed field left
unsettled after the `N+1` passes (for example on a dependency cycle) is
assigned its configured default.  On the code it is simply left absent:
for the two-field cycle `a = add(b, 1)`, `b = add(a, 1)`, both with
default `0`, settlement ends with `a` (and `b`) absent from the facts —
the post-loop default assignment the claim describes does not exist. -/
theorem c3_cycle_default_counterexample :
    aget (calcComputedFields 10 [] cycleExtractors) "a" = none ∧
    aget (calcComputedFields 10 [] cycleExtractors) "b" = none :=
  ⟨rfl, rfl⟩

/-- C3, amended.  Settlement performs at most `N+1` passes for `N`
computed fields (`max_iterations = len(remaining) + 1`, reflected in the
definition of `calcComputedFields`); a field whose formula is actually
evaluated and yields null receives its configured default, but a field
still unsettled after the passes — e.g. on a dependency cycle — is left
absent from the facts even when a default is configured. -/
theorem c3_settlement_amended :
    (∀ evalFuel facts ce, calcComputedFields evalFuel facts ce =
      settleLoop evalFuel (ce.map (·.1)) (ce.length + 1) facts ce) ∧
    aget (calcComputedFields 10 [] nullFormulaExtractors) "c"
      = some (.vint 7) ∧
    aget (calcComputedFields 10 [] cycleExtractors) "a" = none :=
  ⟨fun _ _ _ => rfl, rfl, rfl⟩

/-! ## Claim C2 -/

/-- C2, evaluation at the failing input.  A malformed regex does make the
numeric extractor skip with the field absent (first conjunct), but a
type-conversion failure does **not** leave the field absent: for an
`int` extractor whose pattern matched the non-numeric capture `"abc"`
(e.g. pattern `score: (\w+)` on the text `score: abc`), `int("abc")`
raises a `ValueError` that propagates out of `_extract_field` to the
caller of `parse` — contradicting the claimed never-throws contract. -/
theorem c2_conversion_failure_throws :
    extractFieldNumeric "score: abc".data
        { type := "int", pattern := "score: (\\w+)" }
        (.matched 7 10 (some "abc".data)) = .error () ∧
    extractFieldNumeric "score: abc".data
        { type := "int", pattern := "score: (" } .badPattern = .ok .vnull :=
  ⟨rfl, rfl⟩

/-! ## Claim C7 -/

/-- C7.  For every money extraction, the captured numeric value is
multiplied by the suffix multiplier detected in the lowercased matched
slice (`k` = 1e3, `m` = 1e6, `b` = 1e9, checked in that order); in
particular any match whose slice lowercases to `$5k` with capture `5`
yields 5000.0. -/
theorem c7_money_suffix_multipliers :
    (∀ (text : List Char) (start stop : Nat) (g : List Char) (q : ℚ),
      pyFloat (stripCommas g) = .ok q →
      parseNumeric text start stop g "money" =
        .ok (.vfloat (q * moneyMult (lowerList (sliceL text start stop))))) ∧
    (∀ (text : List Char) (start stop : Nat),
      lowerList (sliceL text start stop) = "$5k".data →
      parseNumeric text start stop "5".data "money" = .ok (.vfloat 5000)) := by
  have key : ∀ (text : List Char) (start stop : Nat) (g : List Char) (q : ℚ),
      pyFloat (stripCommas g) = .ok q →
      parseNumeric text start stop g "money" =
        .ok (.vfloat (q * moneyMult (lowerList (sliceL text start stop)))) := by
    intro text start stop g q h
    simp [parseNumeric, h, Except.map]
  refine ⟨key, ?_⟩
  intro text start stop h
  have h5 : pyFloat (stripCommas "5".data) = .ok 5 := by
    with_unfolding_all rfl
  have h2 := key text start stop "5".data 5 h5
  rw [h] at h2
  have h3 : moneyMult "$5k".data = (1000 : ℚ) := rfl
  have h4 : (5 : ℚ) * 1000 = 5000 := by norm_num
  rw [h3, h4] at h2
  exact h2

/-- C7, witness: the matched slice `$5K` of the text `$5K fees` with
capture `5` extracts 5000.0. -/
theorem c7_money_suffix_multipliers_witness :
    parseNumeric "$5K fees".data 0 3 "5".data "money" =
      .ok (.vfloat 5000) :=
  c7_money_suffix_multipliers.2 "$5K fees".data 0 3 rfl

/-! ## Claim C5 -/

/-- C5.  In formula evaluation: for the comparison operators
`gt`/`gte`/`lt`/`lte`, if either resolved side is null the result is
null; for `add` and `mul`, if any resolved argument (nested formulas
evaluated recursively) is null, the result is null. -/
theorem c5_null_operands_give_null :
    (∀ (n : Nat) (facts : Facts) (a b : Val),
      resolveOp facts a = .vnull ∨ resolveOp facts b = .vnull →
      evalFormula (n + 1) (.vdict [("gt", .vlist [a, b])]) facts
        = .ok .vnull) ∧
    (∀ (n : Nat) (facts : Facts) (a b : Val),
      resolveOp facts a = .vnull ∨ resolveOp facts b = .vnull →
      evalFormula (n + 1) (.vdict [("gte", .vlist [a, b])]) facts
        = .ok .vnull) ∧
    (∀ (n : Nat) (facts : Facts) (a b : Val),
      resolveOp facts a = .vnull ∨ resolveOp facts b = .vnull →
      evalFormula (n + 1) (.vdict [("lt", .vlist [a, b])]) facts
        = .ok .vnull) ∧
    (∀ (n : Nat) (facts : Facts) (a b : Val),
      resolveOp facts a = .vnull ∨ resolveOp facts b = .vnull →
      evalFormula (n + 1) (.vdict [("lte", .vlist [a, b])]) facts
        = .ok .vnull) ∧
    (∀ (n : Nat) (facts : Facts) (args : List Val) (vs : List Val),
      args.mapM (resolveArgWith (fun g => evalFormula n g facts) facts)
        = .ok vs →
      .vnull ∈ vs →
      evalFormula (n + 1) (.vdict [("add", .vlist args)]) facts
        = .ok .vnull) ∧
    (∀ (n : Nat) (facts : Facts) (args : List Val) (vs : List Val),
      args.mapM (resolveArgWith (fun g => evalFormula n g facts) facts)
        = .ok vs →
      .vnull ∈ vs →
      evalFormula (n + 1) (.vdict [("mul", .vlist args)]) facts
        = .ok .vnull) := by
  have hcmp : ∀ (cmp : Val → Val → Except Unit Bool) (facts : Facts)
      (a b : Val),
      resolveOp facts a = .vnull ∨ resolveOp facts b = .vnull →
      cmpBranch cmp facts (.vlist [a, b]) = .ok .vnull := by
    intro cmp facts a b h
    have hnull : (isNullVal (resolveOp facts a) ||
        isNullVal (resolveOp facts b)) = true := by
      rcases h with h | h <;> simp [h, isNullVal]
    simp [cmpBranch, hnull]
  have harith : ∀ (step : Val → Val → Except Unit Val) (init : Val)
      (n : Nat) (facts : Facts) (args : List Val) (vs : List Val),
      args.mapM (resolveArgWith (fun g => evalFormula n g facts) facts)
        = .ok vs →
      .vnull ∈ vs →
      arithBranchWith (fun g => evalFormula n g facts) step init facts
        (.vlist args) = .ok .vnull := by
    intro step init n facts args vs hmap hmem
    have hall : vs.all (fun v => !isNullVal v) = false := by
      rw [List.all_eq_false]
      exact ⟨.vnull, hmem, by simp [isNullVal]⟩
    by_cases hlen : args.length ≥ 2
    · simp only [arithBranchWith]
      rw [if_pos hlen, hmap]
      simp only [bind, Except.bind, hall, Bool.false_eq_true, if_false]
    · simp [arithBranchWith, hlen]
  refine ⟨?_, ?_, ?_, ?_, ?_, ?_⟩
  · intro n facts a b h
    simpa [evalFormula] using hcmp pyGtB facts a b h
  · intro n facts a b h
    simpa [evalFormula] using hcmp pyGeB facts a b h
  · intro n facts a b h
    simpa [evalFormula] using hcmp pyLtB facts a b h
  · intro n facts a b h
    simpa [evalFormula] using hcmp pyLeB facts a b h
  · intro n facts args vs hmap hmem
    simpa [evalFormula] using harith pyAddStep (.vint 0) n facts args vs
      hmap hmem
  · intro n facts args vs hmap hmem
    simpa [evalFormula] using harith pyMulStep (.vint 1) n facts args vs
      hmap hmem

/-- C5, witness: `gt` with a null literal on the left and `add` over a
null literal and an int both evaluate to null. -/
theorem c5_null_operands_give_null_witness :
    evalFormula 1 (.vdict [("gt", .vlist [.vnull, .vint 1])]) []
      = .ok .vnull ∧
    evalFormula 1 (.vdict [("add", .vlist [.vnull, .vint 1])]) []
      = .ok .vnull :=
  ⟨c5_null_operands_give_null.1 0 [] .vnull (.vint 1) (Or.inl rfl),
   c5_null_operands_give_null.2.2.2.2.1 0 [] [.vnull, .vint 1]
     [.vnull, .vint 1] rfl (List.mem_cons_self _ _)⟩

/-! ## Claim C10 -/

/-- C10.  For the `if` operator only the condition is evaluated as a
formula; the selected branch is resolved without evaluation: a string
branch is looked up as a field reference and any other branch — a nested
formula object included — is returned as-is (last conjunct: the
unevaluated `add` formula itself is returned, not its value 3). -/
theorem c10_if_branch_unevaluated :
    (∀ (n : Nat) (facts : Facts) (c t e v : Val),
      resolveArgWith (fun g => evalFormula n g facts) facts c = .ok v →
      evalFormula (n + 1) (.vdict [("if", .vlist [c, t, e])]) facts =
        .ok (resolveOp facts (if truthy v then t else e))) ∧
    (∀ (facts : Facts) (s : String),
      resolveOp facts (.vstr s) = getValue facts s .vnull) ∧
    (∀ (facts : Facts) (kvs : List (String × Val)),
      resolveOp facts (.vdict kvs) = .vdict kvs) ∧
    evalFormula 5 (.vdict [("if", .vlist [.vbool true,
        .vdict [("add", .vlist [.vint 1, .vint 2])], .vnull])]) [] =
      .ok (.vdict [("add", .vlist [.vint 1, .vint 2])]) := by
  refine ⟨?_, fun _ _ => rfl, fun _ _ => rfl, rfl⟩
  intro n facts c t e v h
  by_cases ht : truthy v = true
  · simp [evalFormula, h, ht, bind, Except.bind]
  · simp [evalFormula, h, ht, bind, Except.bind]

/-- C10, witness: a true literal condition selects the `then` branch,
here a field reference resolved against the facts. -/
theorem c10_if_branch_unevaluated_witness :
    evalFormula 1 (.vdict [("if",
        .vlist [.vbool true, .vstr "x", .vnull])]) [("x", .vint 9)] =
      .ok (resolveOp [("x", .vint 9)]
        (if truthy (.vbool true) then .vstr "x" else .vnull)) :=
  c10_if_branch_unevaluated.1 0 [("x", .vint 9)] (.vbool true) (.vstr "x")
    .vnull (.vbool true) rfl

/-! ## Claim C4 -/

/-- The closed operator set of `_evaluate_formula`. -/
def knownOps : List String :=
  ["count_true", "count_fields", "sum", "any", "all", "gt", ">", "gte",
   ">=", "lt", "<", "lte", "<=", "add", "+", "mul", "*", "if", "not",
   "and", "or"]

/-- C4.  A formula with an operator outside the closed operator set
evaluates to null (first conjunct, about the real `_evaluate_formula`);
a constraint whose predicate evaluates to null produces no violation
(second conjunct); and a constraint appears among the violations only
when its predicate evaluates to exactly `False` (third conjunct). -/
theorem c4_null_predicate_no_violation :
    (∀ (fuel : Nat) (facts : Facts) (op : String) (args : Val),
      op ∉ knownOps →
      evalFormula (fuel + 1) (.vdict [(op, args)]) facts = .ok .vnull) ∧
    (∀ (evalFuel : Nat) (facts : Facts) (cs : List Constraint)
      (c : Constraint) (f : Val),
      c.formula = some f →
      evalFormula evalFuel f facts = .ok .vnull →
      c ∉ violationsOf evalFuel facts cs) ∧
    (∀ (evalFuel : Nat) (facts : Facts) (cs : List Constraint)
      (c : Constraint),
      c ∈ violationsOf evalFuel facts cs →
      ∃ f, c.formula = some f ∧
        evalFormula evalFuel f facts = .ok (.vbool false)) := by
  refine ⟨?_, ?_, ?_⟩
  · intro fuel facts op args hop
    simp only [knownOps, List.mem_cons, List.not_mem_nil, or_false,
      not_or] at hop
    simp [evalFormula, hop.1, hop.2.1, hop.2.2.1, hop.2.2.2.1,
      hop.2.2.2.2.1, hop.2.2.2.2.2.1, hop.2.2.2.2.2.2.1,
      hop.2.2.2.2.2.2.2.1, hop.2.2.2.2.2.2.2.2.1,
      hop.2.2.2.2.2.2.2.2.2.1, hop.2.2.2.2.2.2.2.2.2.2.1,
      hop.2.2.2.2.2.2.2.2.2.2.2.1, hop.2.2.2.2.2.2.2.2.2.2.2.2.1,
      hop.2.2.2.2.2.2.2.2.2.2.2.2.2.1,
      hop.2.2.2.2.2.2.2.2.2.2.2.2.2.2.1,
      hop.2.2.2.2.2.2.2.2.2.2.2.2.2.2.2.1,
      hop.2.2.2.2.2.2.2.2.2.2.2.2.2.2.2.2.1,
      hop.2.2.2.2.2.2.2.2.2.2.2.2.2.2.2.2.2.1,
      hop.2.2.2.2.2.2.2.2.2.2.2.2.2.2.2.2.2.2.1,
      hop.2.2.2.2.2.2.2.2.2.2.2.2.2.2.2.2.2.2.2.1,
      hop.2.2.2.2.2.2.2.2.2.2.2.2.2.2.2.2.2.2.2.2]
  · intro evalFuel facts cs c f hf heval hmem
    rw [violationsOf, List.mem_filter] at hmem
    have h2 := hmem.2
    simp [constraintViolated, hf, heval] at h2
  · intro evalFuel facts cs c hmem
    rw [violationsOf, List.mem_filter] at hmem
    have hv := hmem.2
    cases hf : c.formula with
    | none => simp [constraintViolated, hf] at hv
    | some f =>
      simp only [constraintViolated, hf] at hv
      split at hv
      · next heq => exact ⟨f, rfl, heq⟩
      · next => exact absurd hv (by simp)

/-- C4, witness: the unknown operator `frobnicate` evaluates to null,
and a constraint carrying it produces no violation. -/
theorem c4_null_predicate_no_violation_witness :
    evalFormula 1 (.vdict [("frobnicate", .vnull)]) [] = .ok .vnull ∧
    ({ id := "X", formula := some (.vdict [("frobnicate", .vnull)]) } :
        Constraint) ∉
      violationsOf 1 []
        [{ id := "X", formula := some (.vdict [("frobnicate", .vnull)]) }] :=
  ⟨c4_null_predicate_no_violation.1 0 [] "frobnicate" .vnull (by decide),
   c4_null_predicate_no_violation.2.1 1 [] _ _
     (.vdict [("frobnicate", .vnull)]) rfl
     (c4_null_predicate_no_violation.1 0 [] "frobnicate" .vnull
       (by decide))⟩

/-! ## Claim C8 -/

theorem aget_aset_self {α : Type} (m : AList α) (k : String) (v : α) :
    aget (aset m k v) k = some v := by
  induction m with
  | nil => simp [aset, aget]
  | cons hd tl ih =>
    obtain ⟨k', v'⟩ := hd
    by_cases h : k' = k
    · simp [aset, h, aget]
    · simp [aset, h, aget, ih]

set_option maxHeartbeats 2000000 in
/-- C8.  Every confidence score `_calculate_confidence` returns lies in
[0, 1]; computed facts (`set_computed`) and built-in derived facts
(`set_derived`) are recorded with confidence exactly 1.0 and source
`"computed"`. -/
theorem c8_confidence_bounds :
    (∀ (textLower : List Char) (e : Extractor) (v : Val) (q : ℚ),
      calcConfidence textLower e v = .ok q → 0 ≤ q ∧ q ≤ 1) ∧
    (∀ (cf : AList ExtractionResult) (field : String) (v : Val)
      (r : ExtractionResult),
      aget (setComputedC cf field v) field = some r →
      r.confidence = 1 ∧ r.source = "computed") ∧
    (∀ (cf : AList ExtractionResult) (field : String) (v : Val)
      (r : ExtractionResult),
      aget (setDerivedC cf field v) field = some r →
      r.confidence = 1 ∧ r.source = "computed") := by
  refine ⟨?_, ?_, ?_⟩
  · intro tl e v q h
    rcases v
    all_goals simp only [calcConfidence] at h
    all_goals split_ifs at h
    all_goals simp only [Except.ok.injEq, reduceCtorEq] at h
    all_goals (try subst h)
    all_goals norm_num
  · intro cf field v r h
    rw [setComputedC, aget_aset_self] at h
    cases h
    exact ⟨rfl, rfl⟩
  · intro cf field v r h
    rw [setDerivedC, aget_aset_self] at h
    cases h
    exact ⟨rfl, rfl⟩

/-- C8, witness: the default confidence 0.70 is in bounds, and a
computed fact just written carries confidence 1 and source
`"computed"`. -/
theorem c8_confidence_bounds_witness :
    (0 ≤ (0.70 : ℚ) ∧ (0.70 : ℚ) ≤ 1) ∧
    ((⟨.vint 3, 1, "computed", "computed"⟩ :
        ExtractionResult).confidence = 1 ∧
      (⟨.vint 3, 1, "computed", "computed"⟩ :
        ExtractionResult).source = "computed") :=
  ⟨c8_confidence_bounds.1 [] {} .vnull 0.70 rfl,
   c8_confidence_bounds.2.1 [] "f" (.vint 3)
     ⟨.vint 3, 1, "computed", "computed"⟩ (aget_aset_self [] "f" _)⟩

/-! ## Claim C9 -/

theorem toNat_ofNat_small {n : Nat} (h : n < 55296) :
    (Char.ofNat n).toNat = n := by
  unfold Char.ofNat
  rw [dif_pos]
  · rfl
  · exact Or.inl (by simpa using h)

theorem lowerChar_not_upper (c : Char) :
    isUpperAscii (lowerChar c) = false := by
  unfold lowerChar isUpperAscii
  by_cases h : (65 ≤ c.toNat && c.toNat ≤ 90) = true
  · rw [if_pos h]
    simp only [Bool.and_eq_true, decide_eq_true_eq] at h
    rw [toNat_ofNat_small (by omega)]
    have h97 : ¬ (c.toNat + 32 ≤ 90) := by omega
    simp [h97]
  · rw [if_neg h]
    simpa using h

/-- One-step unfolding of the keyword loop. -/
theorem extractBooleanKeywords_cons (tL kw : List Char)
    (rest negs : List (List Char)) (cn : Bool) :
    extractBooleanKeywords tL (kw :: rest) negs cn =
      if containsSub tL kw then
        if cn && !negs.isEmpty then
          if negs.any (fun neg => containsSub
              (sliceL tL ((findSub tL kw).getD 0 - 15)
                ((findSub tL kw).getD 0 + kw.length)) neg) then
            extractBooleanKeywords tL rest negs cn
          else true
        else true
      else extractBooleanKeywords tL rest negs cn := rfl

theorem mem_of_isPrefixL {p t : List Char} (h : isPrefixL p t = true) :
    ∀ c ∈ p, c ∈ t := by
  induction p generalizing t with
  | nil => intro c hc; exact absurd hc (List.not_mem_nil c)
  | cons a as ih =>
    cases t with
    | nil => exact absurd h (by simp [isPrefixL])
    | cons b bs =>
      simp only [isPrefixL, Bool.and_eq_true, beq_iff_eq] at h
      intro c hc
      rcases List.mem_cons.mp hc with hc | hc
      · subst hc; rw [h.1]; exact List.mem_cons_self _ _
      · exact List.mem_cons_of_mem _ (ih h.2 c hc)

theorem mem_of_containsSub {t p : List Char}
    (h : containsSub t p = true) : ∀ c ∈ p, c ∈ t := by
  induction t with
  | nil =>
    simp only [containsSub] at h
    intro c hc
    cases p with
    | nil => exact absurd hc (List.not_mem_nil c)
    | cons x xs => exact absurd h (by simp [isPrefixL])
  | cons b bs ih =>
    simp only [containsSub, Bool.or_eq_true] at h
    intro c hc
    rcases h with h | h
    · exact mem_of_isPrefixL h c hc
    · exact List.mem_cons_of_mem _ (ih h c hc)

/-- C9.  Keywords are matched verbatim against the lowercased text
(first conjunct: a keyword containing an ASCII uppercase character can
never be found in lowercased text; second conjunct: such keywords are
inert in the keyword loop), while the confidence calculation lowercases
each keyword before counting hits, so an uppercase-bearing keyword can
still count as a hit there (last two conjuncts: with keyword
`"Approved"` on the text `"approved"`, extraction returns false yet the
one-keyword-hit confidence 0.75 is reported). -/
theorem c9_uppercase_keyword_never_matches :
    (∀ (text kw : List Char), kw.any isUpperAscii = true →
      containsSub (lowerList text) kw = false) ∧
    (∀ (text : List Char) (kws negs : List (List Char)) (cn : Bool),
      extractBooleanKeywords (lowerList text) kws negs cn =
        extractBooleanKeywords (lowerList text)
          (kws.filter (fun k => !k.any isUpperAscii)) negs cn) ∧
    extractBooleanKeywords (lowerList "approved".data)
      ["Approved".data] [] true = false ∧
    calcConfidence "approved".data
      { type := "boolean", keywords := ["Approved"] } (.vbool false)
      = .ok 0.75 := by
  have key : ∀ (text kw : List Char), kw.any isUpperAscii = true →
      containsSub (lowerList text) kw = false := by
    intro text kw hkw
    cases hcs : containsSub (lowerList text) kw with
    | false => rfl
    | true =>
      exfalso
      rcases List.any_eq_true.mp hkw with ⟨u, hu_mem, hu⟩
      have hmem := mem_of_containsSub hcs u hu_mem
      rcases List.mem_map.mp hmem with ⟨c, _, hc2⟩
      rw [← hc2, lowerChar_not_upper] at hu
      exact Bool.false_ne_true hu
  refine ⟨key, ?_, rfl, rfl⟩
  intro text kws negs cn
  induction kws with
  | nil => rfl
  | cons kw rest ih =>
    rw [List.filter_cons]
    by_cases hup : kw.any isUpperAscii = true
    · have hcs := key text kw hup
      rw [extractBooleanKeywords_cons]
      simp only [hcs, Bool.false_eq_true, if_false, hup, Bool.not_true]
      exact ih
    · have hup' : (!kw.any isUpperAscii) = true := by
        rw [Bool.not_eq_true] at hup
        simp [hup]
      simp only [hup', if_true]
      rw [extractBooleanKeywords_cons, extractBooleanKeywords_cons]
      cases hcs : containsSub (lowerList text) kw with
      | false => simp only [hcs, Bool.false_eq_true, if_false]; exact ih
      | true => simp only [hcs, if_true, ih]

/-- C9, witness: the uppercase-bearing keyword `"Approved"` is never
found in the lowercasing of `"APPROVED"`. -/
theorem c9_uppercase_keyword_never_matches_witness :
    containsSub (lowerList "APPROVED".data) "Approved".data = false :=
  c9_uppercase_keyword_never_matches.1 "APPROVED".data "Approved".data
    (by decide)

/-! ## Claim C6: support lemmas -/

/-- Output shape `^\d\x7b4\x7d-\d\x7b2\x7d-\d\x7b2\x7d$` of the spec's
date-normalization law. -/
def isoShapeFull : List Char → Bool
  | [a, b, c, d, s1, e, f, s2, g, h] =>
    [a, b, c, d, e, f, g, h].all isDigitChar && s1 == '-' && s2 == '-'
  | _ => false

theorem not_space_of_digit {c : Char} (h : isDigitChar c = true) :
    isSpaceChar c = false := by
  unfold isDigitChar at h
  simp only [Bool.and_eq_true, decide_eq_true_eq] at h
  unfold isSpaceChar
  simp only [Bool.or_eq_false_iff, beq_eq_false_iff_ne]
  refine ⟨⟨⟨?_, ?_⟩, ?_⟩, ?_⟩ <;>
    (intro he; subst he; revert h; decide)

theorem not_space_of_sep {c : Char} (h : (c == '-' || c == '/') = true) :
    isSpaceChar c = false := by
  simp only [Bool.or_eq_true, beq_iff_eq] at h
  rcases h with h | h <;> (subst h; rfl)

theorem not_sep_of_digit {c : Char} (h : isDigitChar c = true) :
    (c == '-' || c == '/') = false := by
  unfold isDigitChar at h
  simp only [Bool.and_eq_true, decide_eq_true_eq] at h
  simp only [Bool.or_eq_false_iff, beq_eq_false_iff_ne]
  refine ⟨?_, ?_⟩ <;> (intro he; subst he; revert h; decide)

theorem dropWhile_eq_self_of {l : List Char} {p : Char → Bool}
    (h : ∀ c ∈ l, p c = false) : l.dropWhile p = l := by
  cases l with
  | nil => rfl
  | cons a as =>
    rw [List.dropWhile_cons, if_neg]
    simp [h a (List.mem_cons_self a as)]

theorem stripSpaces_eq_self {l : List Char}
    (h : ∀ c ∈ l, isSpaceChar c = false) : stripSpaces l = l := by
  unfold stripSpaces
  rw [dropWhile_eq_self_of h,
    dropWhile_eq_self_of (fun c hc => h c (List.mem_reverse.mp hc)),
    List.reverse_reverse]

theorem splitSepGo_no_sep (xs : List Char) :
    ∀ (acc rest : List Char),
    (∀ c ∈ xs, (c == '-' || c == '/') = false) →
    splitSepGo acc (xs ++ rest) = splitSepGo (xs.reverse ++ acc) rest := by
  induction xs with
  | nil => intro acc rest _; simp
  | cons a as ih =>
    intro acc rest h
    rw [List.cons_append, splitSepGo,
      if_neg (by simp [h a (List.mem_cons_self a as)]),
      ih (a :: acc) rest (fun c hc => h c (List.mem_cons_of_mem a hc))]
    simp

theorem splitSepGo_sep (acc : List Char) (s : Char) (rest : List Char)
    (hs : (s == '-' || s == '/') = true) :
    splitSepGo acc (s :: rest) = acc.reverse :: splitSepGo [] rest := by
  rw [splitSepGo, if_pos hs]

theorem splitSep_three (a b c : List Char) (s1 s2 : Char)
    (hs1 : (s1 == '-' || s1 == '/') = true)
    (hs2 : (s2 == '-' || s2 == '/') = true)
    (ha : ∀ x ∈ a, (x == '-' || x == '/') = false)
    (hb : ∀ x ∈ b, (x == '-' || x == '/') = false)
    (hc : ∀ x ∈ c, (x == '-' || x == '/') = false) :
    splitSep (a ++ s1 :: (b ++ s2 :: c)) = [a, b, c] := by
  unfold splitSep
  rw [splitSepGo_no_sep a [] (s1 :: (b ++ s2 :: c)) ha,
    splitSepGo_sep _ s1 _ hs1,
    splitSepGo_no_sep b [] (s2 :: c) hb,
    splitSepGo_sep _ s2 _ hs2]
  have hcend : splitSepGo [] c = [c] := by
    have := splitSepGo_no_sep c [] [] hc
    rw [List.append_nil] at this
    rw [this, splitSepGo]
    simp
  rw [hcend]
  simp

theorem pyInt_digits {l : List Char} (hne : l ≠ [])
    (hd : l.all isDigitChar = true) :
    pyInt l = .ok ((digitsVal l : Nat) : Int) := by
  have hstrip : stripSpaces l = l := by
    refine stripSpaces_eq_self (fun c hc => not_space_of_digit ?_)
    exact List.all_eq_true.mp hd c hc
  unfold pyInt
  rw [hstrip]
  cases l with
  | nil => exact absurd rfl hne
  | cons x xs =>
    have hx : isDigitChar x = true :=
      List.all_eq_true.mp hd x (List.mem_cons_self x xs)
    have hx1 : x ≠ '-' := by intro he; subst he; revert hx; decide
    have hx2 : x ≠ '+' := by intro he; subst he; revert hx; decide
    split
    · next r heq => exact absurd (List.head_eq_of_cons_eq heq) hx1
    · next r heq => exact absurd (List.head_eq_of_cons_eq heq) hx2
    · next => rw [if_pos (by simp [hd])]

theorem isDigitChar_ofNat {d : Nat} (h : d < 10) :
    isDigitChar (Char.ofNat (48 + d)) = true := by
  unfold isDigitChar
  rw [toNat_ofNat_small (by omega)]
  simp only [Bool.and_eq_true, decide_eq_true_eq]
  omega

theorem natDigitsAux_digits :
    ∀ (fuel n : Nat), 0 < fuel → n < 10 ^ fuel →
    (natDigitsAux fuel n).all isDigitChar = true := by
  intro fuel
  induction fuel with
  | zero => intro n h; omega
  | succ f ih =>
    intro n _ hn
    rw [natDigitsAux]
    by_cases h10 : n < 10
    · rw [if_pos h10]
      simp [isDigitChar_ofNat h10]
    · rw [if_neg h10]
      have hf : 0 < f := by
        by_contra hf0
        have : f = 0 := by omega
        subst this
        simp [pow_succ] at hn
        omega
      have hdiv : n / 10 < 10 ^ f := by
        rw [Nat.div_lt_iff_lt_mul (by omega)]
        calc n < 10 ^ (f + 1) := hn
        _ = 10 ^ f * 10 := by rw [pow_succ]
      rw [List.all_append]
      rw [ih (n / 10) hf hdiv]
      simp [isDigitChar_ofNat (Nat.mod_lt n (by omega))]

theorem natDigitsAux_len :
    ∀ (fuel n k : Nat), 10 ^ k ≤ n → n < 10 ^ (k + 1) → k < fuel →
    (natDigitsAux fuel n).length = k + 1 := by
  intro fuel
  induction fuel with
  | zero => intro n k _ _ h; omega
  | succ f ih =>
    intro n k hk1 hk2 hkf
    rw [natDigitsAux]
    by_cases h10 : n < 10
    · rw [if_pos h10]
      have hk0 : k = 0 := by
        by_contra hne
        have h1 : 1 ≤ k := by omega
        have : (10 : Nat) ^ 1 ≤ 10 ^ k := Nat.pow_le_pow_right (by omega) h1
        simp at this
        omega
      simp [hk0]
    · rw [if_neg h10]
      have hk1' : 1 ≤ k := by
        by_contra hne
        have : k = 0 := by omega
        subst this
        simp at hk2
        omega
      have ha : 10 ^ (k - 1) ≤ n / 10 := by
        rw [Nat.le_div_iff_mul_le (by omega)]
        calc 10 ^ (k - 1) * 10 = 10 ^ (k - 1 + 1) := (pow_succ 10 (k - 1)).symm
        _ = 10 ^ k := by congr 1; omega
        _ ≤ n := hk1
      have hb : n / 10 < 10 ^ (k - 1 + 1) := by
        rw [Nat.div_lt_iff_lt_mul (by omega)]
        calc n < 10 ^ (k + 1) := hk2
        _ = 10 ^ (k - 1 + 1) * 10 := by rw [← pow_succ]; congr 1; omega
      rw [List.length_append, ih (n / 10) (k - 1) ha hb (by omega)]
      simp
      omega

theorem natDigits_all_digits (n : Nat) :
    (natDigits n).all isDigitChar = true := by
  unfold natDigits
  refine natDigitsAux_digits (n + 1) n (Nat.succ_pos n) ?_
  calc n < 10 ^ n := Nat.lt_pow_self (by omega) n
  _ ≤ 10 ^ (n + 1) := Nat.pow_le_pow_right (by omega) (by omega)

theorem natDigits_len {n k : Nat} (h1 : 10 ^ k ≤ n) (h2 : n < 10 ^ (k + 1)) :
    (natDigits n).length = k + 1 := by
  unfold natDigits
  refine natDigitsAux_len (n + 1) n k h1 h2 ?_
  have hk : k < 10 ^ k := Nat.lt_pow_self (by omega) k
  omega

theorem pad2_shape {i : Int} (h1 : 0 ≤ i) (h2 : i < 100) :
    (pad2 i).length = 2 ∧ (pad2 i).all isDigitChar = true := by
  obtain ⟨n, rfl⟩ : ∃ n : ℕ, i = (n : ℤ) := ⟨i.toNat, by omega⟩
  have hn100 : n < 100 := by exact_mod_cast h2
  have hir : intRender (n : ℤ) = natDigits n := by
    unfold intRender
    rw [if_neg (by omega)]
    simp
  unfold pad2
  rw [hir]
  by_cases h10 : n < 10
  · have hlen : (natDigits n).length = 1 := by
      rcases Nat.eq_zero_or_pos n with h0 | h0
      · rw [h0]; rfl
      · exact natDigits_len (k := 0) (by simpa using h0) (by simpa using h10)
    rw [if_pos (by omega)]
    constructor
    · simp [hlen]
    · simp only [List.all_cons, natDigits_all_digits n, Bool.and_true]
      decide
  · have hlen : (natDigits n).length = 2 :=
      natDigits_len (k := 1) (by simpa using Nat.not_lt.mp h10)
        (by simpa using hn100)
    rw [if_neg (by omega)]
    exact ⟨hlen, natDigits_all_digits n⟩

theorem intRender_year {i : Int} (h1 : 1000 ≤ i) (h2 : i < 10000) :
    (intRender i).length = 4 ∧ (intRender i).all isDigitChar = true := by
  obtain ⟨n, rfl⟩ : ∃ n : ℕ, i = (n : ℤ) := ⟨i.toNat, by omega⟩
  have ha : 1000 ≤ n := by exact_mod_cast h1
  have hb : n < 10000 := by exact_mod_cast h2
  have hir : intRender (n : ℤ) = natDigits n := by
    unfold intRender
    rw [if_neg (by omega)]
    simp
  rw [hir]
  refine ⟨natDigits_len (k := 3) ?_ ?_, natDigits_all_digits n⟩ <;>
    norm_num <;> omega

theorem digitVal_lt {c : Char} (h : isDigitChar c = true) :
    digitVal c < 10 := by
  unfold isDigitChar at h
  simp only [Bool.and_eq_true, decide_eq_true_eq] at h
  unfold digitVal
  omega

theorem digitsVal_foldl_lt :
    ∀ (l : List Char) (acc : Nat), l.all isDigitChar = true →
    l.foldl (fun acc c => acc * 10 + digitVal c) acc <
      (acc + 1) * 10 ^ l.length := by
  intro l
  induction l with
  | nil => intro acc _; simp
  | cons c cs ih =>
    intro acc h
    rw [List.all_cons, Bool.and_eq_true] at h
    have hc : digitVal c < 10 := digitVal_lt h.1
    rw [List.foldl_cons, List.length_cons]
    calc (List.foldl (fun acc c => acc * 10 + digitVal c)
          (acc * 10 + digitVal c) cs)
        < (acc * 10 + digitVal c + 1) * 10 ^ cs.length := ih _ h.2
      _ ≤ ((acc + 1) * 10) * 10 ^ cs.length := by
          have hle : acc * 10 + digitVal c + 1 ≤ (acc + 1) * 10 := by omega
          exact Nat.mul_le_mul_right _ hle
      _ = (acc + 1) * 10 ^ (cs.length + 1) := by ring

theorem digitsVal_lt {l : List Char} (h : l.all isDigitChar = true) :
    digitsVal l < 10 ^ l.length := by
  have := digitsVal_foldl_lt l 0 h
  simpa [digitsVal] using this

theorem length_eq_two' {l : List Char} (h : l.length = 2) :
    ∃ a b, l = [a, b] := by
  rcases l with _ | ⟨a, _ | ⟨b, _ | ⟨c, t⟩⟩⟩ <;> simp_all

theorem length_eq_four' {l : List Char} (h : l.length = 4) :
    ∃ a b c d, l = [a, b, c, d] := by
  rcases l with _ | ⟨a, _ | ⟨b, _ | ⟨c, _ | ⟨d, _ | ⟨e, t⟩⟩⟩⟩⟩ <;> simp_all

theorem isoShapeFull_of {Y M D : List Char}
    (hY1 : Y.length = 4) (hY2 : Y.all isDigitChar = true)
    (hM1 : M.length = 2) (hM2 : M.all isDigitChar = true)
    (hD1 : D.length = 2) (hD2 : D.all isDigitChar = true) :
    isoShapeFull (Y ++ '-' :: (M ++ '-' :: D)) = true := by
  obtain ⟨a, b, c, d, rfl⟩ := length_eq_four' hY1
  obtain ⟨e, f, rfl⟩ := length_eq_two' hM1
  obtain ⟨g, h, rfl⟩ := length_eq_two' hD1
  simp only [List.cons_append, List.nil_append]
  simp_all [isoShapeFull]

/-- Common hypothesis bundle: the digit-and-separator layout of the
numeric date inputs, as delivered by the `DATE_PATTERNS` regexes. -/
theorem normalizeDateCore_strip_split (s1 s2 : Char) (a b c : List Char)
    (hs1 : (s1 == '-' || s1 == '/') = true)
    (hs2 : (s2 == '-' || s2 == '/') = true)
    (ha : a.all isDigitChar = true) (hb : b.all isDigitChar = true)
    (hc : c.all isDigitChar = true) :
    stripSpaces (a ++ s1 :: (b ++ s2 :: c)) = a ++ s1 :: (b ++ s2 :: c) ∧
    splitSep (a ++ s1 :: (b ++ s2 :: c)) = [a, b, c] := by
  constructor
  · refine stripSpaces_eq_self ?_
    intro x hx
    rcases List.mem_append.mp hx with h | h
    · exact not_space_of_digit (List.all_eq_true.mp ha x h)
    · rcases List.mem_cons.mp h with h | h
      · subst h; exact not_space_of_sep hs1
      · rcases List.mem_append.mp h with h | h
        · exact not_space_of_digit (List.all_eq_true.mp hb x h)
        · rcases List.mem_cons.mp h with h | h
          · subst h; exact not_space_of_sep hs2
          · exact not_space_of_digit (List.all_eq_true.mp hc x h)
  · exact splitSep_three a b c s1 s2 hs1 hs2
      (fun x hx => not_sep_of_digit (List.all_eq_true.mp ha x hx))
      (fun x hx => not_sep_of_digit (List.all_eq_true.mp hb x hx))
      (fun x hx => not_sep_of_digit (List.all_eq_true.mp hc x hx))

/-- The `%m-%d-%y` branch of `_normalize_date` on a digit-and-separator
input: the two-digit year is pivoted at 50 and the output is
`year-mm-dd`. -/
theorem normalizeDateCore_short (s1 s2 : Char) (m d y : List Char)
    (hs1 : (s1 == '-' || s1 == '/') = true)
    (hs2 : (s2 == '-' || s2 == '/') = true)
    (hm : m.all isDigitChar = true) (hmne : m ≠ [])
    (hd : d.all isDigitChar = true) (hdne : d ≠ [])
    (hy : y.all isDigitChar = true) (hyne : y ≠ []) :
    normalizeDateCore (m ++ s1 :: (d ++ s2 :: y)) (some "%m-%d-%y") =
      some (intRender (if (digitsVal y : Int) < 50 then
          (digitsVal y : Int) + 2000 else (digitsVal y : Int) + 1900)
        ++ '-' :: (pad2 (digitsVal m) ++ '-' :: pad2 (digitsVal d))) := by
  obtain ⟨hstrip, hsplit⟩ :=
    normalizeDateCore_strip_split s1 s2 m d y hs1 hs2 hm hd hy
  simp only [normalizeDateCore, String.reduceEq, reduceIte, if_false]
  rw [hstrip, hsplit]
  dsimp only
  rw [pyInt_digits hmne hm, pyInt_digits hdne hd, pyInt_digits hyne hy]
  dsimp only
  simp [List.append_assoc]

/-- The `%Y-%m-%d` branch: the four-digit year part is carried over
verbatim and month and day are zero-padded. -/
theorem normalizeDateCore_iso (s1 s2 : Char) (y m d : List Char)
    (hs1 : (s1 == '-' || s1 == '/') = true)
    (hs2 : (s2 == '-' || s2 == '/') = true)
    (hy : y.all isDigitChar = true)
    (hm : m.all isDigitChar = true) (hmne : m ≠ [])
    (hd : d.all isDigitChar = true) (hdne : d ≠ []) :
    normalizeDateCore (y ++ s1 :: (m ++ s2 :: d)) (some "%Y-%m-%d") =
      some (y ++ '-' :: (pad2 (digitsVal m) ++ '-' :: pad2 (digitsVal d)))
      := by
  obtain ⟨hstrip, hsplit⟩ :=
    normalizeDateCore_strip_split s1 s2 y m d hs1 hs2 hy hm hd
  simp only [normalizeDateCore, String.reduceEq, reduceIte, if_false]
  rw [hstrip, hsplit]
  dsimp only
  rw [pyInt_digits hmne hm, pyInt_digits hdne hd]
  dsimp only
  simp [List.append_assoc]

/-- The `%m-%d-%Y` branch: the four-digit year part moves to the front,
month and day are zero-padded. -/
theorem normalizeDateCore_uslong (s1 s2 : Char) (m d y : List Char)
    (hs1 : (s1 == '-' || s1 == '/') = true)
    (hs2 : (s2 == '-' || s2 == '/') = true)
    (hm : m.all isDigitChar = true) (hmne : m ≠ [])
    (hd : d.all isDigitChar = true) (hdne : d ≠ [])
    (hy : y.all isDigitChar = true) :
    normalizeDateCore (m ++ s1 :: (d ++ s2 :: y)) (some "%m-%d-%Y") =
      some (y ++ '-' :: (pad2 (digitsVal m) ++ '-' :: pad2 (digitsVal d)))
      := by
  obtain ⟨hstrip, hsplit⟩ :=
    normalizeDateCore_strip_split s1 s2 m d y hs1 hs2 hm hd hy
  simp only [normalizeDateCore, String.reduceEq, reduceIte, if_false]
  rw [hstrip, hsplit]
  dsimp only
  rw [pyInt_digits hmne hm, pyInt_digits hdne hd]
  dsimp only
  simp [List.append_assoc]

/-! ## Claim C6: the theorem -/

/-- C6.  Date normalization of the numeric `DATE_PATTERNS` forms always
yields a string of shape `year-mm-dd` matching
`^\d\x7b4\x7d-\d\x7b2\x7d-\d\x7b2\x7d$`; two-digit years are resolved as
`yy < 50 → 2000 + yy` and `yy ≥ 50 → 1900 + yy` (first conjunct, the
`%m-%d-%y` branch, stating both the exact output and its shape); the ISO
and US four-digit-year branches likewise produce the shape (next two
conjuncts); in particular `12/25/24 → 2024-12-25`,
`01/02/49 → 2049-01-02`, `01/02/50 → 1950-01-02`; the written-month
forms go through the `strptime` fallback, e.g. `December 25, 2024` and
`25 Dec 2024` both normalize to `2024-12-25`; and the `DATE_PATTERNS`
table routes the short-year regex to the `%m-%d-%y` format. -/
theorem c6_date_normalization :
    (∀ (s1 s2 : Char) (m d y : List Char),
      (s1 == '-' || s1 == '/') = true →
      (s2 == '-' || s2 == '/') = true →
      m.all isDigitChar = true → 1 ≤ m.length → m.length ≤ 2 →
      d.all isDigitChar = true → 1 ≤ d.length → d.length ≤ 2 →
      y.all isDigitChar = true → y.length = 2 →
      normalizeDateCore (m ++ s1 :: (d ++ s2 :: y)) (some "%m-%d-%y") =
        some (intRender (if (digitsVal y : Int) < 50 then
            (digitsVal y : Int) + 2000 else (digitsVal y : Int) + 1900)
          ++ '-' :: (pad2 (digitsVal m) ++ '-' :: pad2 (digitsVal d))) ∧
      isoShapeFull (intRender (if (digitsVal y : Int) < 50 then
            (digitsVal y : Int) + 2000 else (digitsVal y : Int) + 1900)
          ++ '-' :: (pad2 (digitsVal m) ++ '-' :: pad2 (digitsVal d)))
        = true) ∧
    (∀ (s1 s2 : Char) (y m d : List Char),
      (s1 == '-' || s1 == '/') = true →
      (s2 == '-' || s2 == '/') = true →
      y.all isDigitChar = true → y.length = 4 →
      m.all isDigitChar = true → 1 ≤ m.length → m.length ≤ 2 →
      d.all isDigitChar = true → 1 ≤ d.length → d.length ≤ 2 →
      normalizeDateCore (y ++ s1 :: (m ++ s2 :: d)) (some "%Y-%m-%d") =
        some (y ++ '-' :: (pad2 (digitsVal m) ++ '-' :: pad2 (digitsVal d)))
      ∧ isoShapeFull
          (y ++ '-' :: (pad2 (digitsVal m) ++ '-' :: pad2 (digitsVal d)))
        = true) ∧
    (∀ (s1 s2 : Char) (m d y : List Char),
      (s1 == '-' || s1 == '/') = true →
      (s2 == '-' || s2 == '/') = true →
      m.all isDigitChar = true → 1 ≤ m.length → m.length ≤ 2 →
      d.all isDigitChar = true → 1 ≤ d.length → d.length ≤ 2 →
      y.all isDigitChar = true → y.length = 4 →
      normalizeDateCore (m ++ s1 :: (d ++ s2 :: y)) (some "%m-%d-%Y") =
        some (y ++ '-' :: (pad2 (digitsVal m) ++ '-' :: pad2 (digitsVal d)))
      ∧ isoShapeFull
          (y ++ '-' :: (pad2 (digitsVal m) ++ '-' :: pad2 (digitsVal d)))
        = true) ∧
    normalizeDate "12/25/24" (some "%m-%d-%y") = some "2024-12-25" ∧
    normalizeDate "01/02/49" (some "%m-%d-%y") = some "2049-01-02" ∧
    normalizeDate "01/02/50" (some "%m-%d-%y") = some "1950-01-02" ∧
    normalizeDate "December 25, 2024" none = some "2024-12-25" ∧
    normalizeDate "25 Dec 2024" none = some "2024-12-25" ∧
    (DATE_PATTERNS.map Prod.snd =
      [some "%Y-%m-%d", some "%m-%d-%Y", some "%m-%d-%y", none, none]) := by
  have hne : ∀ {l : List Char}, 1 ≤ l.length → l ≠ [] := by
    intro l h he
    subst he
    simp at h
  have hlt100 : ∀ {l : List Char}, l.all isDigitChar = true →
      l.length ≤ 2 → (digitsVal l : Int) < 100 := by
    intro l ha hb
    have h1 : digitsVal l < 10 ^ l.length := digitsVal_lt ha
    have h2 : (10 : ℕ) ^ l.length ≤ 10 ^ 2 :=
      Nat.pow_le_pow_right (by omega) hb
    have : digitsVal l < 100 := by
      calc digitsVal l < 10 ^ l.length := h1
      _ ≤ 10 ^ 2 := h2
      _ = 100 := by norm_num
    exact_mod_cast this
  have hpadshape : ∀ {l : List Char}, l.all isDigitChar = true →
      l.length ≤ 2 →
      (pad2 (digitsVal l)).length = 2 ∧
      (pad2 (digitsVal l)).all isDigitChar = true := by
    intro l ha hb
    exact pad2_shape (by positivity) (hlt100 ha hb)
  refine ⟨?_, ?_, ?_, rfl, rfl, rfl, rfl, rfl, rfl⟩
  · intro s1 s2 m d y hs1 hs2 hm hm1 hm2 hd hd1 hd2 hy hylen
    refine ⟨normalizeDateCore_short s1 s2 m d y hs1 hs2 hm (hne hm1)
      hd (hne hd1) hy (hne (by omega)), ?_⟩
    have hyy : (digitsVal y : Int) < 100 := hlt100 hy (by omega)
    have hyy0 : (0 : Int) ≤ (digitsVal y : Int) := by positivity
    have hyear1 : 1000 ≤ (if (digitsVal y : Int) < 50 then
        (digitsVal y : Int) + 2000 else (digitsVal y : Int) + 1900) := by
      split <;> omega
    have hyear2 : (if (digitsVal y : Int) < 50 then
        (digitsVal y : Int) + 2000 else (digitsVal y : Int) + 1900)
        < 10000 := by
      split <;> omega
    obtain ⟨hl4, hd4⟩ := intRender_year hyear1 hyear2
    obtain ⟨hpml, hpmd⟩ := hpadshape hm hm2
    obtain ⟨hpdl, hpdd⟩ := hpadshape hd hd2
    exact isoShapeFull_of hl4 hd4 hpml hpmd hpdl hpdd
  · intro s1 s2 y m d hs1 hs2 hy hylen hm hm1 hm2 hd hd1 hd2
    refine ⟨normalizeDateCore_iso s1 s2 y m d hs1 hs2 hy hm (hne hm1)
      hd (hne hd1), ?_⟩
    obtain ⟨hpml, hpmd⟩ := hpadshape hm hm2
    obtain ⟨hpdl, hpdd⟩ := hpadshape hd hd2
    exact isoShapeFull_of hylen hy hpml hpmd hpdl hpdd
  · intro s1 s2 m d y hs1 hs2 hm hm1 hm2 hd hd1 hd2 hy hylen
    refine ⟨normalizeDateCore_uslong s1 s2 m d y hs1 hs2 hm (hne hm1)
      hd (hne hd1) hy, ?_⟩
    obtain ⟨hpml, hpmd⟩ := hpadshape hm hm2
    obtain ⟨hpdl, hpdd⟩ := hpadshape hd hd2
    exact isoShapeFull_of hylen hy hpml hpmd hpdl hpdd

/-- C6, witness: the `%m-%d-%y` conjunct applied to `12/25/24`. -/
theorem c6_date_normalization_witness :
    normalizeDateCore ("12".data ++ '/' :: ("25".data ++ '/' :: "24".data))
        (some "%m-%d-%y") =
      some (intRender (if (digitsVal "24".data : Int) < 50 then
          (digitsVal "24".data : Int) + 2000
          else (digitsVal "24".data : Int) + 1900)
        ++ '-' :: (pad2 (digitsVal "12".data)
          ++ '-' :: pad2 (digitsVal "25".data))) ∧
    isoShapeFull (intRender (if (digitsVal "24".data : Int) < 50 then
          (digitsVal "24".data : Int) + 2000
          else (digitsVal "24".data : Int) + 1900)
        ++ '-' :: (pad2 (digitsVal "12".data)
          ++ '-' :: pad2 (digitsVal "25".data))) = true :=
  c6_date_normalization.1 '/' '/' "12".data "25".data "24".data
    rfl rfl (by decide) (by decide) (by decide) (by decide) (by decide)
    (by decide) (by decide) (by decide)

end Aare
